import Mathlib

/-!
# Verification of the pepper-place media browser

Shallow embedding of the frontend's navigation controller
(`src/frontend/src/hooks/usePhotoNavigation.ts`), image preloader
(the `useImagePreloader` hook in the repository sources), media-type
detection (`src/frontend/src/utils/media.ts`) and catalog cache
(`src/frontend/src/services/PhotoService.ts`), together with proofs of
the specification's claims about them.

Conventions:
* JavaScript numbers holding integer values are modelled as `Int`
  (indices may go negative through the JS `%` operator, which is
  truncated remainder, i.e. `Int.tmod`).
* The JavaScript array method `findIndex` is modelled as an
  `Option Nat`-returning function (`none` plays the role of `-1`).
* Asynchronous callback behaviour of the preloader is modelled as a
  small-step transition system over an explicit preloader state; the
  per-request closure variable `cancelled` becomes a set of cancelled
  request ids, and the `loadingStatus` map (whose `false` entries are
  indistinguishable from absent ones to every reader) becomes the list
  of pending requests.
* Storage (`localStorage`) slots are modelled by `Option`-valued fields;
  a stored-but-unparsable manifest string is `some none`.
-/

namespace PepperPlace

/-- Navigation direction; the values of `lastDirection` in
`usePhotoNavigation.ts` (`"forward" | "backward" | null` is modelled as
`Option Direction`). -/
inductive Direction where
  | forward
  | backward
deriving DecidableEq, Repr

/-- The fields of a `Photo` (from `src/frontend/src/types/index.ts`) that
the navigation and preloading code reads: stable id, resource URLs and
the two date coordinates. -/
structure Photo where
  id : String
  url : String
  thumbnailUrl : String
  year : Int
  month : Int
deriving DecidableEq, Repr

/-- JavaScript `Array.prototype.findIndex`: index of the first element
satisfying the predicate, `none` standing for JS `-1`. -/
def findIndex (pred : α → Bool) : List α → Option Nat
  | [] => none
  | x :: xs => if pred x then some 0 else (findIndex pred xs).map (· + 1)

/-- Navigation state owned by `usePhotoNavigation`: the `currentIndex`
React state and the `lastDirection` ref. -/
structure NavState where
  currentIndex : Int
  lastDirection : Option Direction
deriving DecidableEq, Repr

/-- The function `nextPhoto` from `usePhotoNavigation.ts`: no-op on an
empty collection, otherwise records direction `forward` and advances the
index with wraparound (`prevIndex + 1 >= length ? 0 : prevIndex + 1`). -/
def nextPhoto (photosLen : Nat) (s : NavState) : NavState :=
  if photosLen = 0 then s
  else
    { currentIndex := if s.currentIndex + 1 ≥ (photosLen : Int) then 0 else s.currentIndex + 1,
      lastDirection := some .forward }

/-- The function `prevPhoto` from `usePhotoNavigation.ts`: no-op on an
empty collection, otherwise records direction `backward` and decrements
the index with wraparound (`prevIndex - 1 < 0 ? length - 1 : prevIndex - 1`). -/
def prevPhoto (photosLen : Nat) (s : NavState) : NavState :=
  if photosLen = 0 then s
  else
    { currentIndex := if s.currentIndex - 1 < 0 then (photosLen : Int) - 1 else s.currentIndex - 1,
      lastDirection := some .backward }

/-- The `setCurrentIndex` React state setter returned by
`usePhotoNavigation` (the spec's `select(index)`): a direct,
unconditional set of the current index. It carries no guard on the
collection. -/
def setCurrentIndex (s : NavState) (i : Int) : NavState :=
  { s with currentIndex := i }

/-- JavaScript `Math.round`: round half toward positive infinity. -/
def jsRound (q : ℚ) : Int := ⌊q + 1 / 2⌋

/-- The target year extracted by `jumpToYear`: `Math.floor(yearValue)`. -/
def targetYearOf (yearValue : ℚ) : Int := ⌊yearValue⌋

/-- The target month extracted by `jumpToYear`:
`Math.round((yearValue - targetYear) * 12) || 1` (a rounded value of `0`
falls back to month `1`). -/
def targetMonthOf (yearValue : ℚ) : Int :=
  let m := jsRound ((yearValue - targetYearOf yearValue) * 12)
  if m = 0 then 1 else m

/-- The comparison step of the `reduce` callback inside `jumpToYear`:
keep whichever of the two photos has the month closer to the target
(strict comparison, so the accumulator wins ties). -/
def closerMonth (targetMonth : Int) (closest p : Photo) : Photo :=
  if |p.month - targetMonth| < |closest.month - targetMonth| then p else closest

/-- The index-search core of `jumpToYear` from
`src/frontend/src/hooks/usePhotoNavigation.ts` (lines 79–119), over the
already-decomposed target: first an exact `(year, month)` match; else,
among photos of the target year, the one with the closest month (located
again by its id); else the first photo of the target year (necessarily
absent too at that point); `none` models the JS `-1`. -/
def jumpToYearSearch (photos : List Photo) (targetYear targetMonth : Int) : Option Nat :=
  match findIndex (fun p => p.year == targetYear && p.month == targetMonth) photos with
  | some i => some i
  | none =>
    match photos.filter (fun p => p.year == targetYear) with
    | [] => findIndex (fun p => p.year == targetYear) photos
    | c :: rest =>
      findIndex (fun p => p.id == (rest.foldl (closerMonth targetMonth) c).id) photos

/-- The index search of `jumpToYear` on the raw slider value: decompose
into target year and month, then search. -/
def jumpToYearIndex (photos : List Photo) (yearValue : ℚ) : Option Nat :=
  jumpToYearSearch photos (targetYearOf yearValue) (targetMonthOf yearValue)

/-- The function `jumpToYear` at the level of the current index: on an
empty collection, or when no index is found, the current index is left
unchanged (the source only calls `setCurrentIndex` when
`foundIndex >= 0`). -/
def jumpToYear (photos : List Photo) (currentIndex : Nat) (yearValue : ℚ) : Nat :=
  if photos.isEmpty then currentIndex
  else (jumpToYearIndex photos yearValue).getD currentIndex

/-- The function `jumpToYear` acting on the full navigation state: it
never touches `lastDirection`, and is a strict no-op on an empty
collection (early return before any state access). -/
def jumpToYearNav (photos : List Photo) (s : NavState) (yearValue : ℚ) : NavState :=
  if photos.isEmpty then s
  else
    match jumpToYearIndex photos yearValue with
    | some i => { s with currentIndex := (i : Int) }
    | none => s

/-- Media kinds distinguished by `detectMediaType`. -/
inductive MediaType where
  | image
  | video
deriving DecidableEq, Repr

/-- The video extension list from `src/frontend/src/utils/media.ts`. -/
def videoExtensions : List String := [".mp4", ".webm", ".mov", ".avi", ".mkv"]

/-- The function `detectMediaType` from `src/frontend/src/utils/media.ts`:
a URL whose lowercased form ends in a video extension is a video,
anything else an image. JavaScript `toLowerCase` and `endsWith` are
modelled on the character list of the string (per-character lowercasing
and suffix comparison, which agree with them on these ASCII extensions). -/
def detectMediaType (url : String) : MediaType :=
  if videoExtensions.any (fun ext => ext.data.isSuffixOf (url.data.map Char.toLower)) then .video
  else .image

/-- Default full-image buffer size of `useImagePreloader`. -/
def DEFAULT_BUFFER_SIZE : Nat := 3

/-- Thumbnail buffer size of `useImagePreloader`. -/
def THUMBNAIL_BUFFER_SIZE : Nat := 10

/-- The function `getPreloadIndexes` from `useImagePreloader`: the current
index, then full-weight look-ahead (or behind) of `bufferSize` entries and
half-weight entries on the other side, computed with the JS `%` operator
(`Int.tmod`), which is negative when its left operand is negative. -/
def getPreloadIndexes (photosLen : Nat) (currentIndex : Int)
    (direction : Option Direction) (bufferSize : Nat) : List Int :=
  let L : Int := photosLen
  let nextIdx : Nat → Int := fun i => Int.tmod (currentIndex + (i : Int)) L
  let prevIdx : Nat → Int := fun i => Int.tmod (currentIndex - (i : Int) + L) L
  let fwd : Nat → List Int := fun n => (List.range n).map fun i => nextIdx (i + 1)
  let bwd : Nat → List Int := fun n => (List.range n).map fun i => prevIdx (i + 1)
  currentIndex ::
    match direction with
    | some .forward => fwd bufferSize ++ bwd (bufferSize / 2)
    | some .backward => bwd bufferSize ++ fwd (bufferSize / 2)
    | none => (List.range bufferSize).flatMap fun i => [nextIdx (i + 1), prevIdx (i + 1)]

/-- JavaScript array indexing `photos[i]`: `undefined` (here `none`) for
negative or out-of-range indices. -/
def photoAt (photos : List Photo) (i : Int) : Option Photo :=
  if 0 ≤ i then photos[i.toNat]? else none

/-- Full-image URLs the reconcile effect wants loaded (the `photo.url` of
every index in the image window, skipping absent indices). -/
def imageUrlsToLoad (photos : List Photo) (currentIndex : Int)
    (direction : Option Direction) (bufferSize : Nat) : List String :=
  (getPreloadIndexes photos.length currentIndex direction bufferSize).filterMap
    fun i => (photoAt photos i).map Photo.url

/-- Thumbnail URLs the reconcile effect wants loaded (the
`photo.thumbnailUrl` of every index in the thumbnail window). -/
def thumbnailUrlsToLoad (photos : List Photo) (currentIndex : Int)
    (direction : Option Direction) : List String :=
  (getPreloadIndexes photos.length currentIndex direction THUMBNAIL_BUFFER_SIZE).filterMap
    fun i => (photoAt photos i).map Photo.thumbnailUrl

/-- The `urlsToLoad` set built by the reconcile effect of
`useImagePreloader`: image URLs of the primary window together with
thumbnail URLs of the secondary window. -/
def desiredUrls (photos : List Photo) (currentIndex : Int)
    (direction : Option Direction) (bufferSize : Nat) : List String :=
  imageUrlsToLoad photos currentIndex direction bufferSize ++
    thumbnailUrlsToLoad photos currentIndex direction

/-- One in-flight request of the preloader: its URL and the identity of
the closure created for it (ids are handed out by a counter and never
reused). -/
structure PendingReq where
  url : String
  id : Nat
deriving DecidableEq, Repr

/-- State of `useImagePreloader`: the `imageCache` keys (loaded URLs),
the pending requests (the URLs whose `loadingStatus` is `true`, each with
its request id), the ids whose closure flag `cancelled` has been set, and
the id counter. -/
structure PreloaderState where
  imageCache : List String
  pending : List PendingReq
  cancelled : List Nat
  nextId : Nat
deriving DecidableEq, Repr

/-- Initial preloader state: empty maps. -/
def initPre : PreloaderState := { imageCache := [], pending := [], cancelled := [], nextId := 0 }

/-- The function `preloadImage` from `useImagePreloader` (synchronous
part): skip if the URL is already loaded or currently loading, skip
videos, otherwise mark the URL loading and start a request (a fresh id). -/
def preloadImage (s : PreloaderState) (url : String) : PreloaderState :=
  if url ∈ s.imageCache ∨ url ∈ s.pending.map PendingReq.url then s
  else if detectMediaType url = .video then s
  else
    { s with pending := { url := url, id := s.nextId } :: s.pending, nextId := s.nextId + 1 }

/-- The function `isImageCached` from `useImagePreloader`. -/
def isImageCached (s : PreloaderState) (url : String) : Bool :=
  s.imageCache.contains url

/-- The cancellation pass of the reconcile effect: every pending request
whose URL is not in `keep` has its `cancelFn` invoked, which sets the
closure flag `cancelled`, marks the URL not loading and drops the
controller. -/
def cancelNotIn (s : PreloaderState) (keep : List String) : PreloaderState :=
  { s with
    pending := s.pending.filter fun r => decide (r.url ∈ keep),
    cancelled :=
      (s.pending.filter fun r => decide (r.url ∉ keep)).map PendingReq.id ++ s.cancelled }

/-- The reconcile effect of `useImagePreloader` (lines 142–184): early
return on an empty collection; otherwise cancel every pending request
outside the desired URL set, then preload the image window and the
thumbnail window. -/
def reconcile (s : PreloaderState) (photos : List Photo) (currentIndex : Int)
    (direction : Option Direction) (bufferSize : Nat) : PreloaderState :=
  if photos.length = 0 then s
  else
    let s1 := cancelNotIn s (desiredUrls photos currentIndex direction bufferSize)
    let s2 := (imageUrlsToLoad photos currentIndex direction bufferSize).foldl preloadImage s1
    (thumbnailUrlsToLoad photos currentIndex direction).foldl preloadImage s2

/-- The completion callback (`img.onload` / `img.onerror`) of a request:
if the request's closure flag `cancelled` is set, the result is discarded
entirely; otherwise the request stops being pending and, on success, its
URL is committed to the image cache. A completion signal for an unknown
id changes nothing. -/
def completeLoad (s : PreloaderState) (id : Nat) (success : Bool) : PreloaderState :=
  if id ∈ s.cancelled then s
  else
    match s.pending.find? (fun r => r.id == id) with
    | some r =>
      { s with
        pending := s.pending.filter fun q => decide (q.id ≠ id),
        imageCache := if success then r.url :: s.imageCache else s.imageCache }
    | none => s

/-- Events of the preloader's cooperative single-threaded schedule: a run
of the reconcile effect, a direct `preloadImage` call, or the completion
callback of request `id` firing (with success or failure). -/
inductive PreEvent where
  | reconcile (photos : List Photo) (currentIndex : Int)
      (direction : Option Direction) (bufferSize : Nat)
  | request (url : String)
  | complete (id : Nat) (success : Bool)

/-- Single step of the preloader transition system. -/
def stepPre (s : PreloaderState) : PreEvent → PreloaderState
  | .reconcile photos ci d w => reconcile s photos ci d w
  | .request url => preloadImage s url
  | .complete id ok => completeLoad s id ok

/-- Run a list of events from a given state. -/
def runPreFrom (s : PreloaderState) (es : List PreEvent) : PreloaderState :=
  es.foldl stepPre s

/-- Run a list of events from the initial (mount) state. -/
def runPre (es : List PreEvent) : PreloaderState :=
  runPreFrom initPre es

/-- The window set claimed by the specification for `computeWindow`:
the position itself, the forward offsets and the backward offsets, all
reduced with mathematical modulus (`Int.emod`, always non-negative for a
positive length). -/
def windowSpec (photosLen : Nat) (p : Int) (direction : Option Direction)
    (W : Nat) (x : Int) : Prop :=
  let L : Int := photosLen
  let fwdCount : Nat := match direction with | some .backward => W / 2 | _ => W
  let bwdCount : Nat := match direction with | some .forward => W / 2 | _ => W
  x = p ∨
    (∃ i : Nat, 1 ≤ i ∧ i ≤ fwdCount ∧ x = (p + (i : Int)) % L) ∨
    (∃ i : Nat, 1 ≤ i ∧ i ≤ bwdCount ∧ x = (p - (i : Int)) % L)

/-- A photo entry of the manifest (from the `ManifestPhoto` interface),
restricted to the fields the cache logic and transforms read. -/
structure ManifestPhoto where
  id : String
  path : String
  year : Int
  month : Int
deriving DecidableEq, Repr

/-- A timeline period: a year and its photo count. -/
structure TimelinePeriod where
  year : Int
  count : Nat
deriving DecidableEq, Repr

/-- The manifest (the spec's `Collection` snapshot): photo entries,
timeline periods, and the `generated_at` stamp (the spec's generation
token). -/
structure Manifest where
  photos : List ManifestPhoto
  timeline : List TimelinePeriod
  generated_at : String
  total_photos : Int
deriving DecidableEq, Repr

/-- The two `localStorage` slots used by `PhotoService` for one bucket:
the serialized manifest (`some none` models a stored string that fails
parsing or structural validation) and the stored timestamp (modelled by
its parsed integer value). -/
structure CacheStore where
  manifestSlot : Option (Option Manifest)
  timestampSlot : Option Int
deriving DecidableEq, Repr

/-- Cache freshness duration: 24 hours in milliseconds. -/
def CACHE_DURATION : Int := 24 * 60 * 60 * 1000

/-- Outcome of the single remote manifest fetch: network-level failure,
a body failing structural validation, or a valid manifest. -/
inductive RemoteResult where
  | ok (m : Manifest)
  | netError
  | invalidBody
deriving DecidableEq, Repr

/-- Typed failures a load can surface. -/
inductive LoadError where
  | networkError
  | validationError
deriving DecidableEq, Repr

/-- Result of `getManifest`: the returned (or thrown) value, the
in-memory cache afterwards, the storage afterwards, and whether the
remote endpoint was contacted at all. -/
structure GetResult where
  result : Except LoadError Manifest
  mem : Option Manifest
  store : CacheStore
  fetchedRemote : Bool
deriving Repr

/-- The method `loadManifestFromCache` of `PhotoService` (lines 167–205):
disabled in development; absent timestamp or manifest gives `none`; an
expired entry is cleared and gives `none`; otherwise the parsed manifest
(or `none` if parsing/validation fails) is returned. There is no token
comparison and no remote access of any kind. -/
def loadManifestFromCache (disabled : Bool) (store : CacheStore) (now : Int) :
    Option Manifest × CacheStore :=
  if disabled then (none, store)
  else
    match store.timestampSlot, store.manifestSlot with
    | some ts, some mslot =>
      if now - ts > CACHE_DURATION then (none, { manifestSlot := none, timestampSlot := none })
      else (mslot, store)
    | _, _ => (none, store)

/-- The method `saveManifestToCache`: skipped in development, otherwise
stores the manifest and the current time. -/
def saveManifestToCache (disabled : Bool) (m : Manifest) (now : Int) (store : CacheStore) :
    CacheStore :=
  if disabled then store
  else { manifestSlot := some (some m), timestampSlot := some now }

/-- The method `getManifest` of `PhotoService` (lines 271–286), with the
`fetchManifest` body (lines 224–268) inlined for the fall-through case:
return the in-memory manifest if present; else adopt a fresh persisted
snapshot; else perform the full remote fetch, caching a valid result in
memory and storage. -/
def getManifest (disabled : Bool) (mem : Option Manifest) (store : CacheStore)
    (now : Int) (remote : RemoteResult) : GetResult :=
  match mem with
  | some m => { result := .ok m, mem := some m, store := store, fetchedRemote := false }
  | none =>
    match loadManifestFromCache disabled store now with
    | (some m, store1) =>
      { result := .ok m, mem := some m, store := store1, fetchedRemote := false }
    | (none, store1) =>
      match remote with
      | .ok m =>
        { result := .ok m, mem := some m,
          store := saveManifestToCache disabled m now store1, fetchedRemote := true }
      | .netError =>
        { result := .error .networkError, mem := none, store := store1, fetchedRemote := true }
      | .invalidBody =>
        { result := .error .validationError, mem := none, store := store1, fetchedRemote := true }

/-- Combined invariant of the preloader state: cache keys are unique
across the pending map and the image cache (at most one entry per key),
and no video URL ever appears in either. -/
def PreInv (s : PreloaderState) : Prop :=
  (s.pending.map PendingReq.url ++ s.imageCache).Nodup ∧
  (∀ r ∈ s.pending, detectMediaType r.url = MediaType.image) ∧
  (∀ u ∈ s.imageCache, detectMediaType u = MediaType.image)

/-- Concrete photo used in witnesses and counterexamples. -/
def photoA : Photo :=
  { id := "a", url := "a.jpg", thumbnailUrl := "ta.webp", year := 2019, month := 1 }

/-- Second concrete photo used in witnesses and counterexamples. -/
def photoB : Photo :=
  { id := "b", url := "b.jpg", thumbnailUrl := "tb.webp", year := 2022, month := 5 }

/-- Concrete photo at (2021, 3). -/
def photoMar : Photo :=
  { id := "mar", url := "mar.jpg", thumbnailUrl := "tmar.webp", year := 2021, month := 3 }

/-- Concrete photo at (2021, 9). -/
def photoSep : Photo :=
  { id := "sep", url := "sep.jpg", thumbnailUrl := "tsep.webp", year := 2021, month := 9 }

/-- A stale pending request used in witnesses and counterexamples. -/
def oldReq : PendingReq := { url := "old.jpg", id := 0 }

/-- A preloader state with one in-flight request, used in witnesses. -/
def preStateOld : PreloaderState :=
  { imageCache := [], pending := [oldReq], cancelled := [], nextId := 1 }

/-- A concrete video URL used in witnesses. -/
def clipUrl : String := "clip.mp4"

/-- Concrete manifest with one generation token. -/
def manifestA : Manifest :=
  { photos := [], timeline := [], generated_at := "token-a", total_photos := 0 }

/-- Concrete manifest whose generation token differs from `manifestA`. -/
def manifestB : Manifest :=
  { photos := [], timeline := [], generated_at := "token-b", total_photos := 0 }

/-- A cache store persisting `manifestA` with timestamp `0`. -/
def storeA : CacheStore := { manifestSlot := some (some manifestA), timestampSlot := some 0 }

end PepperPlace

namespace PepperPlace

/-- C6 helper: the pure index update of `nextPhoto`. -/
theorem nextPhoto_currentIndex (photosLen : Nat) (s : NavState) (h : photosLen ≠ 0) :
    (nextPhoto photosLen s).currentIndex =
      if s.currentIndex + 1 ≥ (photosLen : Int) then 0 else s.currentIndex + 1 := by
  simp [nextPhoto, h]

/-- C6 helper: the pure index update of `prevPhoto`. -/
theorem prevPhoto_currentIndex (photosLen : Nat) (s : NavState) (h : photosLen ≠ 0) :
    (prevPhoto photosLen s).currentIndex =
      if s.currentIndex - 1 < 0 then (photosLen : Int) - 1 else s.currentIndex - 1 := by
  simp [prevPhoto, h]

/-- C6: for every non-empty collection of length `L`, `step(forward)`
(`nextPhoto`) from index `L-1` moves the position to `0`, `step(backward)`
(`prevPhoto`) from index `0` moves it to `L-1`, and from any other valid
index the two steps move the position by exactly `+1` and `-1`
respectively. -/
theorem step_wraparound (L : Nat) (s : NavState) (hL : 0 < L) :
    (s.currentIndex = (L : Int) - 1 → (nextPhoto L s).currentIndex = 0) ∧
    (s.currentIndex = 0 → (prevPhoto L s).currentIndex = (L : Int) - 1) ∧
    (0 ≤ s.currentIndex → s.currentIndex < (L : Int) - 1 →
      (nextPhoto L s).currentIndex = s.currentIndex + 1) ∧
    (0 < s.currentIndex → s.currentIndex ≤ (L : Int) - 1 →
      (prevPhoto L s).currentIndex = s.currentIndex - 1) := by
  have hne : L ≠ 0 := Nat.pos_iff_ne_zero.mp hL
  refine ⟨?_, ?_, ?_, ?_⟩ <;> intro h
  · rw [nextPhoto_currentIndex L s hne, if_pos (by omega)]
  · rw [prevPhoto_currentIndex L s hne, if_pos (by omega)]
  · intro h2
    rw [nextPhoto_currentIndex L s hne, if_neg (by omega)]
  · intro h2
    rw [prevPhoto_currentIndex L s hne, if_neg (by omega)]

/-- Witness for C6 at `L = 3`: forward from index 2 wraps to 0, backward
from 0 wraps to 2, and interior steps move by exactly one. -/
theorem step_wraparound_witness :
    0 < 3 ∧
    (((2 : Int) = (3 : Int) - 1 → (nextPhoto 3 ⟨2, none⟩).currentIndex = 0) ∧
     ((2 : Int) = 0 → (prevPhoto 3 ⟨2, none⟩).currentIndex = (3 : Int) - 1) ∧
     (0 ≤ (2 : Int) → (2 : Int) < (3 : Int) - 1 →
       (nextPhoto 3 ⟨2, none⟩).currentIndex = 2 + 1) ∧
     (0 < (2 : Int) → (2 : Int) ≤ (3 : Int) - 1 →
       (prevPhoto 3 ⟨2, none⟩).currentIndex = 2 - 1)) :=
  ⟨by decide, step_wraparound 3 ⟨2, none⟩ (by decide)⟩

/-- C9: on a non-empty collection, for every valid current index,
stepping forward then backward restores the original index, and stepping
backward then forward does likewise. -/
theorem step_forward_backward_inverse (L : Nat) (s : NavState)
    (h0 : 0 ≤ s.currentIndex) (hL : s.currentIndex < (L : Int)) :
    (prevPhoto L (nextPhoto L s)).currentIndex = s.currentIndex ∧
    (nextPhoto L (prevPhoto L s)).currentIndex = s.currentIndex := by
  have hne : L ≠ 0 := by
    intro h
    subst h
    simp at hL
    omega
  constructor
  · rw [prevPhoto_currentIndex L _ hne, nextPhoto_currentIndex L s hne]
    by_cases h : s.currentIndex + 1 ≥ (L : Int)
    · rw [if_pos h, if_pos (by omega)]
      omega
    · rw [if_neg h, if_neg (by omega)]
      omega
  · rw [nextPhoto_currentIndex L _ hne, prevPhoto_currentIndex L s hne]
    by_cases h : s.currentIndex - 1 < 0
    · rw [if_pos h, if_pos (by omega)]
      omega
    · rw [if_neg h, if_neg (by omega)]
      omega

/-- Witness for C9 at `L = 3`, index 0 (exercising both wraparound arms). -/
theorem step_forward_backward_inverse_witness :
    (0 ≤ (0 : Int) ∧ (0 : Int) < ((3 : Nat) : Int)) ∧
    ((prevPhoto 3 (nextPhoto 3 ⟨0, some .forward⟩)).currentIndex = 0 ∧
     (nextPhoto 3 (prevPhoto 3 ⟨0, some .forward⟩)).currentIndex = 0) :=
  ⟨⟨by decide, by decide⟩,
   step_forward_backward_inverse 3 ⟨0, some .forward⟩ (by decide) (by decide)⟩

/-- C7: for all collection lengths, positions, directions and window
sizes, the index list computed by `getPreloadIndexes` (the spec's
`computeWindow`) contains the current position. -/
theorem computeWindow_contains_position (L : Nat) (p : Int) (d : Option Direction) (W : Nat) :
    p ∈ getPreloadIndexes L p d W :=
  List.mem_cons_self p _

/-- C8 (amended): on an empty collection `jumpToYear` is a strict no-op
(no state change at all), while `select` — the raw `setCurrentIndex`
setter — is unguarded: it sets the current index unconditionally (only
`lastDirection` is untouched), on an empty collection as much as on any
other. -/
theorem empty_collection_jump_and_select (s : NavState) (yearValue : ℚ) (i : Int) :
    jumpToYearNav [] s yearValue = s ∧
    (setCurrentIndex s i).currentIndex = i ∧
    (setCurrentIndex s i).lastDirection = s.lastDirection := by
  refine ⟨?_, rfl, rfl⟩
  simp [jumpToYearNav]

/-- Counterexample to C8 as stated: with the collection empty,
`select 3` from index 0 changes the navigation state (the claim demands
it be left completely unchanged). -/
theorem empty_collection_select_counterexample :
    setCurrentIndex { currentIndex := 0, lastDirection := none } 3 ≠
      { currentIndex := 0, lastDirection := none } ∧
    (setCurrentIndex { currentIndex := 0, lastDirection := none } 3).currentIndex = 3 := by
  refine ⟨?_, rfl⟩
  decide

/-- C2 (amended): with no in-memory snapshot and caching enabled,
`getManifest` adopts a persisted snapshot unchanged — without contacting
the remote endpoint and regardless of any generation token — whenever the
snapshot is present, parses validly and its age is within the freshness
duration; it contacts the remote endpoint (full fetch) when the persisted
entry is stale, absent, or invalid. -/
theorem getManifest_persistence_behavior (store : CacheStore) (now : Int)
    (remote : RemoteResult) :
    (∀ m ts, store.manifestSlot = some (some m) → store.timestampSlot = some ts →
      now - ts ≤ CACHE_DURATION →
      getManifest false none store now remote =
        { result := .ok m, mem := some m, store := store, fetchedRemote := false }) ∧
    (∀ ts, store.timestampSlot = some ts → now - ts > CACHE_DURATION →
      (getManifest false none store now remote).fetchedRemote = true) ∧
    (store.manifestSlot = none ∨ store.timestampSlot = none →
      (getManifest false none store now remote).fetchedRemote = true) ∧
    (store.manifestSlot = some none →
      (getManifest false none store now remote).fetchedRemote = true) := by
  obtain ⟨ms, tss⟩ := store
  refine ⟨?_, ?_, ?_, ?_⟩
  · rintro m ts rfl rfl hfresh
    have hc : ¬(now - ts > CACHE_DURATION) := by omega
    simp [getManifest, loadManifestFromCache, hc]
  · rintro ts rfl hstale
    cases ms with
    | none => cases remote <;> simp [getManifest, loadManifestFromCache]
    | some mslot => cases remote <;> simp [getManifest, loadManifestFromCache, hstale]
  · rintro (rfl | rfl)
    · cases tss <;> cases remote <;>
        simp [getManifest, loadManifestFromCache]
    · cases remote <;> simp [getManifest, loadManifestFromCache]
  · rintro rfl
    cases tss with
    | none => cases remote <;> simp [getManifest, loadManifestFromCache]
    | some ts =>
      by_cases hc : now - ts > CACHE_DURATION <;> cases remote <;>
        simp [getManifest, loadManifestFromCache, hc]

/-- Witness for C2 (amended) at a concrete fresh store: the persisted
`manifestA` is adopted unchanged with no remote contact. -/
theorem getManifest_persistence_behavior_witness :
    storeA.manifestSlot = some (some manifestA) ∧
    storeA.timestampSlot = some 0 ∧
    (1000 : Int) - 0 ≤ CACHE_DURATION ∧
    getManifest false none storeA 1000 (.ok manifestB) =
      { result := .ok manifestA, mem := some manifestA, store := storeA,
        fetchedRemote := false } :=
  ⟨rfl, rfl, by decide,
   (getManifest_persistence_behavior storeA 1000 (.ok manifestB)).1 manifestA 0 rfl rfl
     (by decide)⟩

/-- Helper: `preloadImage` never touches the cancelled set. -/
theorem preloadImage_cancelled (s : PreloaderState) (url : String) :
    (preloadImage s url).cancelled = s.cancelled := by
  unfold preloadImage
  split
  · rfl
  · split <;> rfl

/-- Helper: folding `preloadImage` over a URL list never touches the
cancelled set. -/
theorem foldl_preload_cancelled (urls : List String) :
    ∀ s : PreloaderState, (urls.foldl preloadImage s).cancelled = s.cancelled := by
  induction urls with
  | nil => intro s; rfl
  | cons u us ih => intro s; rw [List.foldl_cons, ih, preloadImage_cancelled]

/-- Helper: `completeLoad` never touches the cancelled set. -/
theorem completeLoad_cancelled (s : PreloaderState) (id : Nat) (b : Bool) :
    (completeLoad s id b).cancelled = s.cancelled := by
  unfold completeLoad
  split
  · rfl
  · split <;> rfl

/-- Helper: the cancelled set only grows across any preloader step
(closure flags are never reset). -/
theorem cancelled_subset_stepPre (s : PreloaderState) (e : PreEvent) :
    s.cancelled ⊆ (stepPre s e).cancelled := by
  cases e with
  | reconcile photos ci d w =>
    simp only [stepPre]
    unfold reconcile
    split
    · exact fun _ ha => ha
    · intro a ha
      rw [foldl_preload_cancelled, foldl_preload_cancelled]
      exact List.mem_append_right _ ha
  | request url =>
    simp only [stepPre]
    rw [preloadImage_cancelled]
    exact fun _ ha => ha
  | complete id ok =>
    simp only [stepPre]
    rw [completeLoad_cancelled]
    exact fun _ ha => ha

/-- Helper: the cancelled set only grows across any run of events. -/
theorem cancelled_subset_runPreFrom (es : List PreEvent) :
    ∀ s : PreloaderState, s.cancelled ⊆ (runPreFrom s es).cancelled := by
  induction es with
  | nil => exact fun _ _ ha => ha
  | cons e es ih =>
    exact fun s _ ha => ih (stepPre s e) (cancelled_subset_stepPre s e ha)

/-- Helper: a completion callback whose request was cancelled discards
its result: the state is unchanged. -/
theorem completeLoad_of_cancelled (s : PreloaderState) (id : Nat) (b : Bool)
    (h : id ∈ s.cancelled) : completeLoad s id b = s := by
  unfold completeLoad
  rw [if_pos h]

/-- Helper: `preloadImage` preserves the preloader invariant. -/
theorem preInv_preloadImage (s : PreloaderState) (url : String) (h : PreInv s) :
    PreInv (preloadImage s url) := by
  obtain ⟨hnd, hp, hc⟩ := h
  unfold preloadImage
  split
  · exact ⟨hnd, hp, hc⟩
  · split
    · exact ⟨hnd, hp, hc⟩
    · rename_i h1 h2
      push_neg at h1
      refine ⟨?_, ?_, hc⟩
      · simp only [List.map_cons, List.cons_append, List.nodup_cons]
        refine ⟨?_, hnd⟩
        simp only [List.mem_append]
        rintro (hm | hm)
        · exact h1.2 hm
        · exact h1.1 hm
      · intro r hr
        simp only [List.mem_cons] at hr
        rcases hr with rfl | hr
        · cases hdet : detectMediaType url with
          | image => rfl
          | video => exact absurd hdet h2
        · exact hp r hr

/-- Helper: the cancellation pass preserves the preloader invariant. -/
theorem preInv_cancelNotIn (s : PreloaderState) (keep : List String) (h : PreInv s) :
    PreInv (cancelNotIn s keep) := by
  obtain ⟨hnd, hp, hc⟩ := h
  refine ⟨?_, ?_, hc⟩
  · have hs : (((s.pending.filter fun r => decide (r.url ∈ keep)).map PendingReq.url) ++
        s.imageCache).Sublist (s.pending.map PendingReq.url ++ s.imageCache) :=
      ((List.filter_sublist s.pending).map PendingReq.url).append_right s.imageCache
    exact List.Nodup.sublist hs hnd
  · intro r hr
    exact hp r (List.mem_of_mem_filter hr)

/-- Helper: completion callbacks preserve the preloader invariant. -/
theorem preInv_completeLoad (s : PreloaderState) (id : Nat) (b : Bool) (h : PreInv s) :
    PreInv (completeLoad s id b) := by
  obtain ⟨hnd, hp, hc⟩ := h
  unfold completeLoad
  split
  · exact ⟨hnd, hp, hc⟩
  · cases hf : s.pending.find? (fun r => r.id == id) with
    | none => exact ⟨hnd, hp, hc⟩
    | some r =>
      have hrmem : r ∈ s.pending := List.mem_of_find?_eq_some hf
      have hrid : r.id = id := by
        have := List.find?_some hf
        simpa using this
      have hsub : ((s.pending.filter fun q => decide (q.id ≠ id)).map PendingReq.url).Sublist
          (s.pending.map PendingReq.url) := (List.filter_sublist s.pending).map PendingReq.url
      rw [List.nodup_append] at hnd
      obtain ⟨hnd1, hnd2, hdisj⟩ := hnd
      have hrurl : r.url ∈ s.pending.map PendingReq.url := List.mem_map_of_mem _ hrmem
      cases b with
      | false =>
        refine ⟨?_, ?_, hc⟩
        · simp only [if_neg Bool.false_ne_true]
          rw [List.nodup_append]
          refine ⟨List.Nodup.sublist hsub hnd1, hnd2, ?_⟩
          intro u hu
          obtain ⟨q, hq, rfl⟩ := List.mem_map.mp hu
          exact List.disjoint_left.mp hdisj
            (List.mem_map_of_mem _ (List.mem_of_mem_filter hq))
        · intro q hq
          exact hp q (List.mem_of_mem_filter hq)
      | true =>
        refine ⟨?_, ?_, ?_⟩
        · simp only [if_pos]
          rw [List.nodup_append]
          refine ⟨List.Nodup.sublist hsub hnd1, ?_, ?_⟩
          · rw [List.nodup_cons]
            exact ⟨List.disjoint_left.mp hdisj hrurl, hnd2⟩
          · intro u hu
            obtain ⟨q, hq, rfl⟩ := List.mem_map.mp hu
            have hqmem : q ∈ s.pending := List.mem_of_mem_filter hq
            have hqid : q.id ≠ id := by
              have := (List.mem_filter.mp hq).2
              simpa using this
            intro hmem
            rcases List.mem_cons.mp hmem with hqr | hqc
            · have : q = r := List.inj_on_of_nodup_map hnd1 hqmem hrmem hqr
              exact hqid (this ▸ hrid)
            · exact List.disjoint_left.mp hdisj (List.mem_map_of_mem _ hqmem) hqc
        · intro q hq
          exact hp q (List.mem_of_mem_filter hq)
        · intro u hu
          rcases List.mem_cons.mp hu with rfl | hu
          · exact hp r hrmem
          · exact hc u hu

/-- Helper: folding `preloadImage` preserves the preloader invariant. -/
theorem preInv_foldl_preload (urls : List String) :
    ∀ s : PreloaderState, PreInv s → PreInv (urls.foldl preloadImage s) := by
  induction urls with
  | nil => exact fun _ h => h
  | cons u us ih => exact fun s h => ih (preloadImage s u) (preInv_preloadImage s u h)

/-- Helper: every preloader step preserves the invariant. -/
theorem preInv_stepPre (s : PreloaderState) (e : PreEvent) (h : PreInv s) :
    PreInv (stepPre s e) := by
  cases e with
  | reconcile photos ci d w =>
    simp only [stepPre]
    unfold reconcile
    split
    · exact h
    · exact preInv_foldl_preload _ _ (preInv_foldl_preload _ _ (preInv_cancelNotIn _ _ h))
  | request url => exact preInv_preloadImage s url h
  | complete id ok => exact preInv_completeLoad s id ok h

/-- Helper: the invariant holds at mount. -/
theorem preInv_init : PreInv initPre := by
  refine ⟨?_, ?_, ?_⟩ <;> simp [initPre]

/-- Helper: the invariant holds after any run from an invariant state. -/
theorem preInv_runPreFrom (es : List PreEvent) :
    ∀ s : PreloaderState, PreInv s → PreInv (runPreFrom s es) := by
  induction es with
  | nil => exact fun _ h => h
  | cons e es ih => exact fun s h => ih (stepPre s e) (preInv_stepPre s e h)

/-- Helper: the invariant holds in every reachable preloader state. -/
theorem preInv_runPre (es : List PreEvent) : PreInv (runPre es) :=
  preInv_runPreFrom es initPre preInv_init

/-- Helper: after a `preloadImage` call, every pending request was
already pending or carries the requested URL. -/
theorem pending_preloadImage_mem (s : PreloaderState) (url : String) (r : PendingReq)
    (hr : r ∈ (preloadImage s url).pending) : r ∈ s.pending ∨ r.url = url := by
  unfold preloadImage at hr
  split at hr
  · exact Or.inl hr
  · split at hr
    · exact Or.inl hr
    · simp only [List.mem_cons] at hr
      rcases hr with rfl | hr
      · exact Or.inr rfl
      · exact Or.inl hr

/-- Helper: after folding `preloadImage` over a URL list, every pending
request was already pending or carries one of the listed URLs. -/
theorem pending_foldl_preload (urls : List String) :
    ∀ (s : PreloaderState) (r : PendingReq), r ∈ (urls.foldl preloadImage s).pending →
      r ∈ s.pending ∨ r.url ∈ urls := by
  induction urls with
  | nil => exact fun _ _ hr => Or.inl hr
  | cons u us ih =>
    intro s r hr
    rw [List.foldl_cons] at hr
    rcases ih (preloadImage s u) r hr with h | h
    · rcases pending_preloadImage_mem s u r h with h' | h'
      · exact Or.inl h'
      · exact Or.inr (by simp [h'])
    · exact Or.inr (List.mem_cons_of_mem _ h)

/-- Helper: a second completion signal for the same request id never
changes the state again. -/
theorem completeLoad_idem (s : PreloaderState) (id : Nat) (b b' : Bool) :
    completeLoad (completeLoad s id b) id b' = completeLoad s id b := by
  by_cases hcanc : id ∈ s.cancelled
  · rw [completeLoad_of_cancelled s id b hcanc, completeLoad_of_cancelled s id b' hcanc]
  · cases hf : s.pending.find? (fun r => r.id == id) with
    | none =>
      have h1 : completeLoad s id b = s := by
        unfold completeLoad
        rw [if_neg hcanc, hf]
      rw [h1]
      unfold completeLoad
      rw [if_neg hcanc, hf]
    | some r =>
      have h1 : completeLoad s id b =
          { s with pending := s.pending.filter fun q => decide (q.id ≠ id),
                   imageCache := if b then r.url :: s.imageCache else s.imageCache } := by
        unfold completeLoad
        rw [if_neg hcanc, hf]
      have hf2 : ((s.pending.filter fun q => decide (q.id ≠ id)).find?
          (fun r => r.id == id)) = none := by
        rw [List.find?_eq_none]
        intro x hx
        have := (List.mem_filter.mp hx).2
        simpa using this
      rw [h1]
      unfold completeLoad
      rw [if_neg hcanc, hf2]

/-- C5: in every reachable preloader state, the cache holds at most one
entry per key (counting pending and ready entries together); requesting a
URL that is already ready or pending is a no-op; and a load attempt
completes at most once — after a completion signal for a request id has
been processed, a second signal for the same id changes nothing. -/
theorem cache_single_entry_per_key (es : List PreEvent) (url : String) (id : Nat)
    (b b' : Bool) :
    (((runPre es).pending.map PendingReq.url ++ (runPre es).imageCache).count url ≤ 1) ∧
    ((url ∈ (runPre es).imageCache ∨ url ∈ (runPre es).pending.map PendingReq.url) →
      preloadImage (runPre es) url = runPre es) ∧
    (stepPre (stepPre (runPre es) (.complete id b)) (.complete id b') =
      stepPre (runPre es) (.complete id b)) := by
  refine ⟨?_, ?_, ?_⟩
  · exact List.nodup_iff_count_le_one.mp (preInv_runPre es).1 url
  · intro hmem
    unfold preloadImage
    rw [if_pos hmem]
  · simp only [stepPre]
    exact completeLoad_idem _ id b b'

/-- Witness for C5: after one request for `a.jpg`, re-requesting `a.jpg`
is a no-op. -/
theorem cache_single_entry_per_key_witness :
    (photoA.url ∈ (runPre [.request photoA.url]).imageCache ∨
      photoA.url ∈ (runPre [.request photoA.url]).pending.map PendingReq.url) ∧
    preloadImage (runPre [.request photoA.url]) photoA.url = runPre [.request photoA.url] :=
  ⟨Or.inr (by decide),
   (cache_single_entry_per_key [.request photoA.url] photoA.url 0 true true).2.1
     (Or.inr (by decide))⟩

/-- C10: a URL detected as video is never requested and never cached: in
every reachable preloader state it is neither pending nor in the image
cache, so `isImageCached` returns `false` at all times. -/
theorem video_urls_never_cached (es : List PreEvent) (url : String)
    (h : detectMediaType url = MediaType.video) :
    isImageCached (runPre es) url = false ∧
    url ∉ (runPre es).pending.map PendingReq.url := by
  obtain ⟨-, hp, hc⟩ := preInv_runPre es
  constructor
  · have hmem : url ∉ (runPre es).imageCache := by
      intro hmem
      rw [hc url hmem] at h
      simp at h
    simpa [isImageCached] using hmem
  · intro hmem
    obtain ⟨r, hr, hru⟩ := List.mem_map.mp hmem
    have himg := hp r hr
    rw [hru, h] at himg
    simp at himg

/-- Witness for C10: the video URL `clip.mp4`, after being requested,
is still neither cached nor pending. -/
theorem video_urls_never_cached_witness :
    detectMediaType clipUrl = MediaType.video ∧
    (isImageCached (runPre [.request clipUrl]) clipUrl = false ∧
     clipUrl ∉ (runPre [.request clipUrl]).pending.map PendingReq.url) :=
  ⟨by decide, video_urls_never_cached [.request clipUrl] clipUrl (by decide)⟩

/-- C3 (amended): for a non-empty collection, after a reconcile pass
every remaining pending key lies in the desired URL set, every previously
pending request outside the desired set has had its cancellation flag
set, and a request cancelled as of the reconcile never transitions to
ready afterwards: whenever its completion callback fires — after any
further events — the result is discarded and the state is unchanged. -/
theorem reconcile_cancels_outside_window (s : PreloaderState) (photos : List Photo)
    (pos : Int) (dir : Option Direction) (bufSize : Nat) (hph : photos ≠ []) :
    (∀ r ∈ (reconcile s photos pos dir bufSize).pending,
      r.url ∈ desiredUrls photos pos dir bufSize) ∧
    (∀ r ∈ s.pending, r.url ∉ desiredUrls photos pos dir bufSize →
      r.id ∈ (reconcile s photos pos dir bufSize).cancelled) ∧
    (∀ id, id ∈ (reconcile s photos pos dir bufSize).cancelled →
      ∀ (es : List PreEvent) (b : Bool),
        stepPre (runPreFrom (reconcile s photos pos dir bufSize) es) (.complete id b) =
          runPreFrom (reconcile s photos pos dir bufSize) es) := by
  have hlen : ¬photos.length = 0 := fun h => hph (List.length_eq_zero.mp h)
  refine ⟨?_, ?_, ?_⟩
  · intro r hr
    simp only [reconcile, hlen, if_false] at hr
    rcases pending_foldl_preload _ _ r hr with h1 | h1
    · rcases pending_foldl_preload _ _ r h1 with h2 | h2
      · have := (List.mem_filter.mp h2).2
        simpa using this
      · exact List.mem_append_left _ h2
    · exact List.mem_append_right _ h1
  · intro r hr hnot
    simp only [reconcile, hlen, if_false]
    rw [foldl_preload_cancelled, foldl_preload_cancelled]
    simp only [cancelNotIn]
    apply List.mem_append_left
    exact List.mem_map_of_mem PendingReq.id
      (List.mem_filter.mpr ⟨hr, by simpa using hnot⟩)
  · intro id hid es b
    have hid2 := cancelled_subset_runPreFrom es _ hid
    simp only [stepPre]
    exact completeLoad_of_cancelled _ id b hid2

/-- Witness for C3 at a concrete state: one stale pending request
(`old.jpg`) and a one-photo collection. -/
theorem reconcile_cancels_outside_window_witness :
    ([photoA] ≠ ([] : List Photo)) ∧
    ((∀ r ∈ (reconcile preStateOld [photoA] 0 none 3).pending,
       r.url ∈ desiredUrls [photoA] 0 none 3) ∧
     (∀ r ∈ preStateOld.pending, r.url ∉ desiredUrls [photoA] 0 none 3 →
       r.id ∈ (reconcile preStateOld [photoA] 0 none 3).cancelled) ∧
     (∀ id, id ∈ (reconcile preStateOld [photoA] 0 none 3).cancelled →
       ∀ (es : List PreEvent) (b : Bool),
         stepPre (runPreFrom (reconcile preStateOld [photoA] 0 none 3) es) (.complete id b) =
           runPreFrom (reconcile preStateOld [photoA] 0 none 3) es)) :=
  ⟨by decide, reconcile_cancels_outside_window preStateOld [photoA] 0 none 3 (by decide)⟩

/-- Counterexample to C3 as stated: the reconcile effect returns early on
an empty collection, so a reconcile call with an empty collection leaves
the stale request `old.jpg` pending even though the desired set is empty. -/
theorem reconcile_empty_collection_counterexample :
    (reconcile preStateOld [] 0 none 3).pending = [oldReq] ∧
    desiredUrls [] 0 none 3 = [] := by
  exact ⟨rfl, rfl⟩

/-- Counterexample to C2 as stated: the persisted token differs from the
remote one (`token-a` vs `token-b`) and the snapshot is fresh, yet
`getManifest` performs no remote access whatsoever (no probe) and returns
the persisted snapshot, where the claim demands a full fetch on token
mismatch. -/
theorem getManifest_no_token_probe_counterexample :
    manifestA.generated_at ≠ manifestB.generated_at ∧
    (getManifest false none storeA 1000 (.ok manifestB)).fetchedRemote = false ∧
    (getManifest false none storeA 1000 (.ok manifestB)).result = .ok manifestA := by
  refine ⟨by decide, rfl, rfl⟩

/-- Helper: the `reduce` fold of `jumpToYear` returns one of the folded
photos. -/
theorem foldl_closerMonth_mem (tm : Int) (rest : List Photo) :
    ∀ c : Photo, rest.foldl (closerMonth tm) c ∈ c :: rest := by
  induction rest with
  | nil => intro c; simp
  | cons p t ih =>
    intro c
    rw [List.foldl_cons]
    have hcp : closerMonth tm c p = p ∨ closerMonth tm c p = c := by
      unfold closerMonth
      split
      · exact Or.inl rfl
      · exact Or.inr rfl
    rcases List.mem_cons.mp (ih (closerMonth tm c p)) with h | h
    · rw [h]
      rcases hcp with h2 | h2 <;> rw [h2] <;> simp
    · exact List.mem_cons_of_mem _ (List.mem_cons_of_mem _ h)

/-- Helper: the `reduce` fold of `jumpToYear` minimizes the month
distance over the folded photos. -/
theorem foldl_closerMonth_min (tm : Int) (rest : List Photo) :
    ∀ c : Photo, ∀ q ∈ c :: rest,
      |(rest.foldl (closerMonth tm) c).month - tm| ≤ |q.month - tm| := by
  induction rest with
  | nil =>
    intro c q hq
    rcases List.mem_cons.mp hq with rfl | h
    · exact le_refl _
    · simp at h
  | cons p t ih =>
    intro c q hq
    rw [List.foldl_cons]
    have hstep : |(t.foldl (closerMonth tm) (closerMonth tm c p)).month - tm| ≤
        |(closerMonth tm c p).month - tm| :=
      ih (closerMonth tm c p) _ (List.mem_cons_self _ _)
    have hle_c : |(closerMonth tm c p).month - tm| ≤ |c.month - tm| := by
      unfold closerMonth
      split
      · next hlt => exact le_of_lt hlt
      · exact le_refl _
    have hle_p : |(closerMonth tm c p).month - tm| ≤ |p.month - tm| := by
      unfold closerMonth
      split
      · exact le_refl _
      · next hlt => exact le_of_not_lt hlt
    rcases List.mem_cons.mp hq with rfl | hq2
    · exact le_trans hstep hle_c
    · rcases List.mem_cons.mp hq2 with rfl | hq3
      · exact le_trans hstep hle_p
      · exact ih (closerMonth tm c p) q (List.mem_cons_of_mem _ hq3)

/-- Helper: JS `findIndex` returns `-1` (`none`) exactly when no element
satisfies the predicate. -/
theorem findIndex_eq_none_iff (pred : α → Bool) (l : List α) :
    findIndex pred l = none ↔ ∀ x ∈ l, pred x = false := by
  induction l with
  | nil => simp [findIndex]
  | cons x xs ih =>
    cases hp : pred x with
    | true => simp [findIndex, hp]
    | false => simp [findIndex, hp, Option.map_eq_none', List.forall_mem_cons, ih]

/-- Helper: a successful JS `findIndex` returns a valid index whose
element satisfies the predicate. -/
theorem findIndex_some (pred : α → Bool) :
    ∀ (l : List α) (i : Nat), findIndex pred l = some i →
      ∃ h : i < l.length, pred (l.get ⟨i, h⟩) = true := by
  intro l
  induction l with
  | nil => intro i h; simp [findIndex] at h
  | cons x xs ih =>
    intro i h
    cases hp : pred x with
    | true =>
      simp only [findIndex, hp, if_true] at h
      obtain rfl : (0 : Nat) = i := Option.some.injEq _ _ ▸ by simpa using h
      exact ⟨Nat.succ_pos _, by simpa using hp⟩
    | false =>
      simp only [findIndex, hp, Bool.false_eq_true, if_false, Option.map_eq_some'] at h
      obtain ⟨j, hj, rfl⟩ := h
      obtain ⟨hjl, hjp⟩ := ih j hj
      exact ⟨Nat.succ_lt_succ hjl, by simpa using hjp⟩

/-- Helper: JS `findIndex` succeeds when some element satisfies the
predicate. -/
theorem findIndex_isSome (pred : α → Bool) (l : List α)
    (h : ∃ x ∈ l, pred x = true) : ∃ i, findIndex pred l = some i := by
  induction l with
  | nil =>
    obtain ⟨x, hx, -⟩ := h
    simp at hx
  | cons y ys ih =>
    cases hp : pred y with
    | true => exact ⟨0, by simp [findIndex, hp]⟩
    | false =>
      obtain ⟨x, hx, hpx⟩ := h
      rcases List.mem_cons.mp hx with rfl | hx2
      · rw [hp] at hpx
        cases hpx
      · obtain ⟨j, hj⟩ := ih ⟨x, hx2, hpx⟩
        exact ⟨j + 1, by simp [findIndex, hp, hj]⟩

/-- Helper: the three-stage behaviour of the index search of
`jumpToYear`, over an already-decomposed target: (1) when an exact
`(year, month)` match exists, the search returns the first such index;
(2) else, when the target year is present, it returns a valid index whose
photo has the target year and the minimal month distance among photos of
that year (ids must be unique for the id-lookup to land on the
minimizer); (3) when the target year is absent, the search fails. -/
theorem jumpToYearSearch_spec (photos : List Photo) (ty tm : Int)
    (hid : (photos.map Photo.id).Nodup) :
    ((∃ p ∈ photos, p.year = ty ∧ p.month = tm) →
      jumpToYearSearch photos ty tm =
        findIndex (fun p => p.year == ty && p.month == tm) photos) ∧
    ((∀ p ∈ photos, ¬(p.year = ty ∧ p.month = tm)) → (∃ p ∈ photos, p.year = ty) →
      ∃ i, jumpToYearSearch photos ty tm = some i ∧
        ∃ h : i < photos.length,
          (photos.get ⟨i, h⟩).year = ty ∧
          ∀ q ∈ photos, q.year = ty →
            |(photos.get ⟨i, h⟩).month - tm| ≤ |q.month - tm|) ∧
    ((∀ p ∈ photos, p.year ≠ ty) → jumpToYearSearch photos ty tm = none) := by
  refine ⟨?_, ?_, ?_⟩
  · intro hex
    obtain ⟨p, hp, hpy, hpm⟩ := hex
    obtain ⟨i, hi⟩ := findIndex_isSome (fun p => p.year == ty && p.month == tm) photos
      ⟨p, hp, by simp [hpy, hpm]⟩
    simp only [jumpToYearSearch, hi]
  · intro hnoex hyear
    have hexactnone : findIndex (fun p => p.year == ty && p.month == tm) photos = none := by
      rw [findIndex_eq_none_iff]
      intro x hx
      have hnx := hnoex x hx
      by_cases h1 : x.year = ty
      · have h2 : x.month ≠ tm := fun h => hnx ⟨h1, h⟩
        simp [h1, h2]
      · simp [h1]
    obtain ⟨p0, hp0, hp0y⟩ := hyear
    have hfilterne : photos.filter (fun p => p.year == ty) ≠ [] := by
      intro hnil
      rw [List.filter_eq_nil_iff] at hnil
      have := hnil p0 hp0
      simp at this
      exact this hp0y
    obtain ⟨c, rest, hcr⟩ := List.exists_cons_of_ne_nil hfilterne
    have hmem_filter : rest.foldl (closerMonth tm) c ∈ photos.filter (fun p => p.year == ty) := by
      rw [hcr]
      exact foldl_closerMonth_mem tm rest c
    have hmem : rest.foldl (closerMonth tm) c ∈ photos := List.mem_of_mem_filter hmem_filter
    have hyearc : (rest.foldl (closerMonth tm) c).year = ty := by
      have := (List.mem_filter.mp hmem_filter).2
      simpa using this
    have hmin : ∀ q ∈ photos, q.year = ty →
        |(rest.foldl (closerMonth tm) c).month - tm| ≤ |q.month - tm| := by
      intro q hq hqy
      have hqf : q ∈ photos.filter (fun p => p.year == ty) :=
        List.mem_filter.mpr ⟨hq, by simp [hqy]⟩
      rw [hcr] at hqf
      exact foldl_closerMonth_min tm rest c q hqf
    obtain ⟨i, hi⟩ := findIndex_isSome
      (fun p => p.id == (rest.foldl (closerMonth tm) c).id) photos
      ⟨rest.foldl (closerMonth tm) c, hmem, by simp⟩
    refine ⟨i, ?_, ?_⟩
    · simp only [jumpToYearSearch, hexactnone, hcr, hi]
    · obtain ⟨hil, hip⟩ := findIndex_some _ photos i hi
      have hgid : (photos.get ⟨i, hil⟩).id = (rest.foldl (closerMonth tm) c).id := by
        simpa using hip
      have hgeq : photos.get ⟨i, hil⟩ = rest.foldl (closerMonth tm) c :=
        List.inj_on_of_nodup_map hid (List.get_mem photos i hil) hmem hgid
      refine ⟨hil, ?_, ?_⟩
      · rw [hgeq]
        exact hyearc
      · intro q hq hqy
        rw [hgeq]
        exact hmin q hq hqy
  · intro hnone
    have h1 : findIndex (fun p => p.year == ty && p.month == tm) photos = none := by
      rw [findIndex_eq_none_iff]
      intro x hx
      simp [hnone x hx]
    have h2 : photos.filter (fun p => p.year == ty) = [] := by
      rw [List.filter_eq_nil_iff]
      intro a ha
      simpa using hnone a ha
    have h3 : findIndex (fun p => p.year == ty) photos = none := by
      rw [findIndex_eq_none_iff]
      intro x hx
      simpa using hnone x hx
    simp only [jumpToYearSearch, h1, h2, h3]

/-- C1 (amended): on a non-empty collection with distinct photo ids,
`jumpToYear` selects by this search order: (1) if a photo exactly matches
the decomposed `(targetYear, targetMonth)`, the first such photo's index
is selected; (2) otherwise, if any photo has the target year, a valid
index is selected whose photo has the target year and minimizes
`|month - targetMonth|` among that year's photos; (3) otherwise — in
particular when the target year is absent from the collection — the
current index is left unchanged (there is no nearest-year fallback). -/
theorem jumpToYear_search_order (photos : List Photo) (cur : Nat) (yearValue : ℚ)
    (hne : photos ≠ []) (hid : (photos.map Photo.id).Nodup) :
    ((∃ p ∈ photos, p.year = targetYearOf yearValue ∧ p.month = targetMonthOf yearValue) →
      findIndex (fun p => p.year == targetYearOf yearValue &&
          p.month == targetMonthOf yearValue) photos =
        some (jumpToYear photos cur yearValue)) ∧
    ((∀ p ∈ photos, ¬(p.year = targetYearOf yearValue ∧ p.month = targetMonthOf yearValue)) →
     (∃ p ∈ photos, p.year = targetYearOf yearValue) →
      ∃ h : jumpToYear photos cur yearValue < photos.length,
        (photos.get ⟨jumpToYear photos cur yearValue, h⟩).year = targetYearOf yearValue ∧
        ∀ q ∈ photos, q.year = targetYearOf yearValue →
          |(photos.get ⟨jumpToYear photos cur yearValue, h⟩).month - targetMonthOf yearValue| ≤
            |q.month - targetMonthOf yearValue|) ∧
    ((∀ p ∈ photos, p.year ≠ targetYearOf yearValue) → jumpToYear photos cur yearValue = cur) := by
  have hemp : photos.isEmpty = false := by
    cases photos with
    | nil => exact absurd rfl hne
    | cons a l => rfl
  obtain ⟨hs1, hs2, hs3⟩ :=
    jumpToYearSearch_spec photos (targetYearOf yearValue) (targetMonthOf yearValue) hid
  refine ⟨?_, ?_, ?_⟩
  · intro hex
    have h1 := hs1 hex
    obtain ⟨p, hp, hpy, hpm⟩ := hex
    obtain ⟨i, hi⟩ := findIndex_isSome
      (fun p => p.year == targetYearOf yearValue && p.month == targetMonthOf yearValue) photos
      ⟨p, hp, by simp [hpy, hpm]⟩
    have hju : jumpToYear photos cur yearValue = i := by
      simp [jumpToYear, hemp, jumpToYearIndex, h1, hi]
    rw [hju]
    exact hi
  · intro hno hyr
    obtain ⟨i, hsome, hlen, hy, hmin⟩ := hs2 hno hyr
    have hju : jumpToYear photos cur yearValue = i := by
      simp [jumpToYear, hemp, jumpToYearIndex, hsome]
    rw [hju]
    exact ⟨hlen, hy, hmin⟩
  · intro hnone
    have h3 := hs3 hnone
    simp [jumpToYear, hemp, jumpToYearIndex, h3]

/-- Witness for C1 (amended): two photos at (2021, 3) and (2021, 9), and
a jump to `2021 + 7/12` (target month 7): no exact match, the target year
is present, so case (2) applies — the selected photo is from 2021 with
minimal month distance (month 9). -/
theorem jumpToYear_search_order_witness :
    (([photoMar, photoSep] : List Photo) ≠ [] ∧
      (([photoMar, photoSep] : List Photo).map Photo.id).Nodup) ∧
    (((∃ p ∈ [photoMar, photoSep], p.year = targetYearOf (2021 + 7 / 12 : ℚ) ∧
        p.month = targetMonthOf (2021 + 7 / 12 : ℚ)) →
      findIndex (fun p => p.year == targetYearOf (2021 + 7 / 12 : ℚ) &&
          p.month == targetMonthOf (2021 + 7 / 12 : ℚ)) [photoMar, photoSep] =
        some (jumpToYear [photoMar, photoSep] 0 (2021 + 7 / 12 : ℚ))) ∧
    ((∀ p ∈ [photoMar, photoSep], ¬(p.year = targetYearOf (2021 + 7 / 12 : ℚ) ∧
        p.month = targetMonthOf (2021 + 7 / 12 : ℚ))) →
     (∃ p ∈ [photoMar, photoSep], p.year = targetYearOf (2021 + 7 / 12 : ℚ)) →
      ∃ h : jumpToYear [photoMar, photoSep] 0 (2021 + 7 / 12 : ℚ) <
          ([photoMar, photoSep] : List Photo).length,
        (([photoMar, photoSep] : List Photo).get
            ⟨jumpToYear [photoMar, photoSep] 0 (2021 + 7 / 12 : ℚ), h⟩).year =
          targetYearOf (2021 + 7 / 12 : ℚ) ∧
        ∀ q ∈ [photoMar, photoSep], q.year = targetYearOf (2021 + 7 / 12 : ℚ) →
          |(([photoMar, photoSep] : List Photo).get
              ⟨jumpToYear [photoMar, photoSep] 0 (2021 + 7 / 12 : ℚ), h⟩).month -
            targetMonthOf (2021 + 7 / 12 : ℚ)| ≤
            |q.month - targetMonthOf (2021 + 7 / 12 : ℚ)|) ∧
    ((∀ p ∈ [photoMar, photoSep], p.year ≠ targetYearOf (2021 + 7 / 12 : ℚ)) →
      jumpToYear [photoMar, photoSep] 0 (2021 + 7 / 12 : ℚ) = 0)) :=
  ⟨⟨by decide, by decide⟩,
   jumpToYear_search_order [photoMar, photoSep] 0 (2021 + 7 / 12 : ℚ) (by decide) (by decide)⟩

/-- Counterexample to C1 as stated: the collection holds years 2019 and
2022 only; the claim demands that `jumpTo(2023.0)` select the item with
the nearest year (index 1, year 2022), but `jumpToYear` has no
nearest-year fallback and leaves the position at index 0. -/
theorem jumpToYear_absent_year_counterexample :
    (∀ p ∈ [photoA, photoB], p.year ≠ targetYearOf (2023 : ℚ)) ∧
    |photoB.year - targetYearOf (2023 : ℚ)| < |photoA.year - targetYearOf (2023 : ℚ)| ∧
    jumpToYear [photoA, photoB] 0 (2023 : ℚ) = 0 ∧
    jumpToYear [photoA, photoB] 0 (2023 : ℚ) ≠ 1 := by
  refine ⟨?_, ?_, ?_, ?_⟩ <;> decide

/-- C4 (amended): whenever the window size does not exceed
`position + length` (so that the JS `%` never sees a negative operand on
the backward side), the index set computed by `getPreloadIndexes` is
exactly the claimed window: the position itself, `W` full-weight offsets
ahead and `⌊W/2⌋` behind for direction forward, the roles inverted for
backward, and `W` on each side for no direction, all modulo the length.
Without that proviso the backward offsets are computed by JS `%` on a
negative operand and can fall outside this set (see the counterexample). -/
theorem getPreloadIndexes_window_spec (L W : Nat) (p : Int) (d : Option Direction)
    (hL : 0 < L) (hp : 0 ≤ p) (hW : (W : Int) ≤ p + L) :
    ∀ x : Int, x ∈ getPreloadIndexes L p d W ↔ windowSpec L p d W x := by
  have hLz : ((L : Int)) ≠ 0 := by
    omega
  have hnext : ∀ j : Nat, Int.tmod (p + (j : Int)) (L : Int) = (p + (j : Int)) % (L : Int) :=
    fun j => Int.tmod_eq_emod (by omega) (by omega)
  have hprev : ∀ j : Nat, (j : Int) ≤ (W : Int) →
      Int.tmod (p - (j : Int) + (L : Int)) (L : Int) = (p - (j : Int)) % (L : Int) := by
    intro j hj
    rw [Int.tmod_eq_emod (by omega) (by omega)]
    have h1 := Int.add_mul_emod_self_left (p - (j : Int)) (L : Int) 1
    rw [mul_one] at h1
    exact h1
  intro x
  cases d with
  | none =>
    simp only [getPreloadIndexes, windowSpec, List.mem_cons, List.mem_flatMap,
      List.mem_range]
    constructor
    · rintro (rfl | ⟨i, hi, hmem⟩)
      · exact Or.inl rfl
      · simp only [List.mem_cons, List.not_mem_nil, or_false] at hmem
        rcases hmem with rfl | rfl
        · exact Or.inr (Or.inl ⟨i + 1, by omega, by omega, hnext (i + 1)⟩)
        · exact Or.inr (Or.inr ⟨i + 1, by omega, by omega, hprev (i + 1) (by omega)⟩)
    · rintro (rfl | ⟨j, hj1, hjn, rfl⟩ | ⟨j, hj1, hjn, rfl⟩)
      · exact Or.inl rfl
      · refine Or.inr ?_
        cases j with
        | zero => omega
        | succ k =>
          refine ⟨k, by omega, ?_⟩
          simp only [List.mem_cons, List.not_mem_nil, or_false]
          exact Or.inl (hnext (k + 1)).symm
      · refine Or.inr ?_
        cases j with
        | zero => omega
        | succ k =>
          refine ⟨k, by omega, ?_⟩
          simp only [List.mem_cons, List.not_mem_nil, or_false]
          exact Or.inr (hprev (k + 1) (by omega)).symm
  | some dir =>
    cases dir with
    | forward =>
      simp only [getPreloadIndexes, windowSpec, List.mem_cons, List.mem_append,
        List.mem_map, List.mem_range]
      constructor
      · rintro (rfl | ⟨⟨i, hi, rfl⟩ | ⟨i, hi, rfl⟩⟩)
        · exact Or.inl rfl
        · exact Or.inr (Or.inl ⟨i + 1, by omega, by omega, hnext (i + 1)⟩)
        · exact Or.inr (Or.inr ⟨i + 1, by omega, by omega, hprev (i + 1) (by omega)⟩)
      · rintro (rfl | ⟨j, hj1, hjn, rfl⟩ | ⟨j, hj1, hjn, rfl⟩)
        · exact Or.inl rfl
        · refine Or.inr (Or.inl ?_)
          cases j with
          | zero => omega
          | succ k => exact ⟨k, by omega, hnext (k + 1)⟩
        · refine Or.inr (Or.inr ?_)
          cases j with
          | zero => omega
          | succ k => exact ⟨k, by omega, hprev (k + 1) (by omega)⟩
    | backward =>
      simp only [getPreloadIndexes, windowSpec, List.mem_cons, List.mem_append,
        List.mem_map, List.mem_range]
      constructor
      · rintro (rfl | ⟨⟨i, hi, rfl⟩ | ⟨i, hi, rfl⟩⟩)
        · exact Or.inl rfl
        · exact Or.inr (Or.inr ⟨i + 1, by omega, by omega, hprev (i + 1) (by omega)⟩)
        · exact Or.inr (Or.inl ⟨i + 1, by omega, by omega, hnext (i + 1)⟩)
      · rintro (rfl | ⟨j, hj1, hjn, rfl⟩ | ⟨j, hj1, hjn, rfl⟩)
        · exact Or.inl rfl
        · refine Or.inr (Or.inr ?_)
          cases j with
          | zero => omega
          | succ k => exact ⟨k, by omega, hnext (k + 1)⟩
        · refine Or.inr (Or.inl ?_)
          cases j with
          | zero => omega
          | succ k => exact ⟨k, by omega, hprev (k + 1) (by omega)⟩

/-- Witness for C4 (amended) at the spec's concrete scenario: length 50,
position 10, direction forward, window 3 — the computed list is exactly
`[10, 11, 12, 13, 9]`, i.e. the set `{9, 10, 11, 12, 13}`. -/
theorem getPreloadIndexes_window_spec_witness :
    (0 < 50 ∧ 0 ≤ (10 : Int) ∧ ((3 : Nat) : Int) ≤ 10 + 50) ∧
    (∀ x : Int, x ∈ getPreloadIndexes 50 10 (some .forward) 3 ↔
      windowSpec 50 10 (some .forward) 3 x) ∧
    getPreloadIndexes 50 10 (some .forward) 3 = [10, 11, 12, 13, 9] :=
  ⟨⟨by decide, by decide, by decide⟩,
   getPreloadIndexes_window_spec 50 3 10 (some .forward) (by decide) (by decide) (by decide),
   by decide⟩

/-- Counterexample to C4 as stated: at length 2, position 0, window 3,
direction backward, the JS `%` produces the negative index `-1`
(`(0 - 3 + 2) % 2 = -1`), which is not in the claimed window set (whose
elements are all mathematical residues, hence non-negative). -/
theorem getPreloadIndexes_negative_index_counterexample :
    (-1 : Int) ∈ getPreloadIndexes 2 0 (some .backward) 3 ∧
    ¬windowSpec 2 0 (some .backward) 3 (-1) := by
  constructor
  · decide
  · intro h
    simp only [windowSpec] at h
    rcases h with h | ⟨i, -, -, h⟩ | ⟨i, -, -, h⟩ <;> omega

end PepperPlace
